import Mathlib

/-! Verification of the COVER vaccination-coverage ingestion pipeline.

A shallow embedding, in Lean 4, of the pure core of the CSV ingestion /
normalization pipeline of this repository:

* the numeric cell normalizer `clean_numeric_value` — the repository holds
  three variants of it: `src/src/csv_cleaner.py` (used by the
  special-program loader), the `database_version_2/src/csv_cleaner.py`
  variant (fewer suppression markers), and the
  `backend_code/database_src/csv_cleaner(1).py` variant (strips `%`, always
  parses with `float()`);
* the filename classifier `identify_csv_type` and the per-layout
  configuration `get_structure_config`;
* the data-row classifier `is_data_row_typed` and the value-column
  extraction of `load_cleaned_csv_typed`;
* the vaccine name resolver `VaccineMatcher`, including a faithful model of
  `difflib.SequenceMatcher.ratio` on the (short, junk-free) strings involved;
* the upsert-by-natural-key write discipline shared by all fact loaders.

Cell values are modelled as `Option String`: `none` stands for a Python
`None`/NaN cell (`pd.isna` true), `some s` for a cell whose `str()` value is
`s`.  Parsed numbers are modelled as exact decimals `Dec` (an integer
mantissa with a power-of-ten scale); `Dec.toQ` maps them to `ℚ`, and value
statements compare via `toQ`, matching the Python numeric `==` which
identifies `int` and `float` results.  Decimal literals are taken at their
exact decimal value.  Not modelled: `inf`/`nan` float-literal spellings,
underscores in numeric literals, and non-ASCII whitespace/case — none of
which occur in this data set.
-/

/-! ## Python string primitives -/

/-- The ASCII whitespace characters removed by the Python method `str.strip()`. -/
def pyIsSpace (c : Char) : Bool :=
  c = ' ' || c = '\t' || c = '\n' || c = '\r' || c = '\x0b' || c = '\x0c'

/-- `str.strip()` on a character list. -/
def pyStripList (l : List Char) : List Char :=
  ((l.dropWhile pyIsSpace).reverse.dropWhile pyIsSpace).reverse

/-- `str.strip()`. -/
def pyStrip (s : String) : String := ⟨pyStripList s.data⟩

/-- List version of the Python method `str.startswith` (also the worker for
substring search below). -/
def listIsPrefixOf : List Char → List Char → Bool
  | [], _ => true
  | _ :: _, [] => false
  | a :: as, b :: bs => if a = b then listIsPrefixOf as bs else false

/-- List version of the Python substring test `sub in s`. -/
def listIsInfixOf (sub : List Char) : List Char → Bool
  | [] => listIsPrefixOf sub []
  | c :: rest => listIsPrefixOf sub (c :: rest) || listIsInfixOf sub rest

/-- Python `sub in s` (contiguous substring). -/
def pyContains (s sub : String) : Bool := listIsInfixOf sub.data s.data

/-- Python `s.startswith(pre)`. -/
def pyStartsWith (s pre : String) : Bool := listIsPrefixOf pre.data s.data

/-- Worker for Python `s.replace(pat, rep)`.  The `skip` counter carries how
many just-matched characters remain to be consumed, which keeps the
recursion structural (Python replaces non-overlapping occurrences scanning
left to right, so no occurrence check happens inside a matched region). -/
def replaceGo (pat rep : List Char) : List Char → ℕ → List Char
  | [], _ => []
  | _ :: rest, skip + 1 => replaceGo pat rep rest skip
  | c :: rest, 0 =>
    if pat ≠ [] ∧ listIsPrefixOf pat (c :: rest) = true then
      rep ++ replaceGo pat rep rest (pat.length - 1)
    else
      c :: replaceGo pat rep rest 0

/-- Python `s.replace(pat, rep)` on character lists. -/
def replaceList (pat rep l : List Char) : List Char := replaceGo pat rep l 0

/-- Python `s.replace(pat, rep)`. -/
def pyReplace (s pat rep : String) : String := ⟨replaceList pat.data rep.data s.data⟩

/-- Python `s.lower()` (ASCII). -/
def pyLower (s : String) : String := ⟨s.data.map Char.toLower⟩

/-! ## Exact decimal numbers

The parsed Python cell values (`int(...)` or `float(...)` of a decimal
literal) are modelled as exact decimals `m / 10 ^ e`. -/

/-- An exact decimal number `m / 10 ^ e`. -/
structure Dec where
  m : ℤ
  e : ℕ
  deriving DecidableEq, Repr

/-- The rational value of an exact decimal. -/
def Dec.toQ (d : Dec) : ℚ := (d.m : ℚ) / 10 ^ d.e

/-! ## Python numeric literal parsing (`int(s)`, `float(s)`) -/

/-- Value of a list of decimal digit characters. -/
def digitsToNat (l : List Char) : ℕ :=
  l.foldl (fun a c => 10 * a + (c.toNat - ('0').toNat)) 0

/-- Parse a non-empty run of decimal digits. -/
def parseDigits? (l : List Char) : Option ℕ :=
  if l ≠ [] ∧ l.all Char.isDigit then some (digitsToNat l) else none

/-- Python `int(s)`: optional surrounding whitespace, optional sign, then a
non-empty digit run (digit-group underscores are not modelled). -/
def pyInt? (s : String) : Option ℤ :=
  match pyStripList s.data with
  | [] => none
  | c :: rest =>
    if c = '+' then (parseDigits? rest).map (fun n => (n : ℤ))
    else if c = '-' then (parseDigits? rest).map (fun n => -(n : ℤ))
    else (parseDigits? (c :: rest)).map (fun n => (n : ℤ))

/-- Split a list at the first character satisfying `p`; `none` when no
character does. -/
def splitFirst (p : Char → Bool) : List Char → Option (List Char × List Char)
  | [] => none
  | c :: rest =>
    if p c then some ([], rest)
    else match splitFirst p rest with
      | some (a, b) => some (c :: a, b)
      | none => none

/-- Mantissa of a Python float literal: `digits [. digits]`, `digits.` or
`. digits`, as an exact decimal. -/
def parseMantissa? (l : List Char) : Option Dec :=
  match splitFirst (fun c => c = '.') l with
  | none => (parseDigits? l).map (fun n => ⟨(n : ℤ), 0⟩)
  | some (ip, fp) =>
    if (ip.all Char.isDigit ∧ fp.all Char.isDigit) ∧ (ip ≠ [] ∨ fp ≠ []) then
      some ⟨(digitsToNat (ip ++ fp) : ℤ), fp.length⟩
    else none

/-- Exponent part of a Python float literal: optional sign then digits. -/
def parseExp? (l : List Char) : Option ℤ :=
  match l with
  | [] => none
  | c :: r =>
    if c = '+' then (parseDigits? r).map (fun n => (n : ℤ))
    else if c = '-' then (parseDigits? r).map (fun n => -(n : ℤ))
    else (parseDigits? (c :: r)).map (fun n => (n : ℤ))

/-- Negate an exact decimal when the literal carried a `-` sign. -/
def applySign (neg : Bool) (d : Dec) : Dec :=
  if neg then ⟨-d.m, d.e⟩ else d

/-- Multiply an exact decimal by `10 ^ ex`. -/
def applyExp (d : Dec) (ex : ℤ) : Dec :=
  match ex with
  | Int.ofNat k => ⟨d.m * 10 ^ k, d.e⟩
  | Int.negSucc k => ⟨d.m, d.e + (k + 1)⟩

/-- Python `float(s)` restricted to finite decimal literals, as the exact
decimal value of the literal (`inf`/`nan` spellings and underscores are not
modelled; binary-double rounding of the literal is abstracted away). -/
def pyFloat? (s : String) : Option Dec :=
  let t := pyStripList s.data
  let sb : Bool × List Char :=
    match t with
    | [] => (false, [])
    | c :: r =>
      if c = '+' then (false, r)
      else if c = '-' then (true, r)
      else (false, c :: r)
  match splitFirst (fun c => c = 'e' || c = 'E') sb.2 with
  | none => (parseMantissa? sb.2).map (applySign sb.1)
  | some (m, e) =>
    match parseMantissa? m, parseExp? e with
    | some q, some ex => some (applyExp (applySign sb.1 q) ex)
    | _, _ => none

/-! ## Python rounding

The Python built-in `round(x, n)` rounds half to even (so-called banker rounding)
on the exact value of `x`. -/

/-- Python `round(d, n)` for `n ≥ 0` decimal places on an exact decimal.
When the decimal already has at most `n` places the value is unchanged;
otherwise the mantissa is divided by the excess power of ten, rounding half
to even (`Int.fdiv`/`Int.fmod` give the floor quotient and a remainder in
`[0, p)`). -/
def pyRoundDec (d : Dec) (n : ℕ) : Dec :=
  if d.e ≤ n then d
  else
    let p : ℤ := (10 : ℤ) ^ (d.e - n)
    let q : ℤ := Int.fdiv d.m p
    let r : ℤ := Int.fmod d.m p
    if 2 * r < p then ⟨q, n⟩
    else if p < 2 * r then ⟨q + 1, n⟩
    else if q % 2 = 0 then ⟨q, n⟩ else ⟨q + 1, n⟩

/-! ## `clean_numeric_value` — the three variants in the repository

A raw cell is an `Option String` (`none` = Python `None` / NaN).  Each
variant is embedded as a pair-returning function mirroring the
`return_range=True` behaviour of the Python code; the `return_range=False`
behaviour returns, in every branch of the source, exactly the first
component of the corresponding pair, so it is defined as that projection. -/

/-- `clean_numeric_value(value, decimal_places, return_range=True)` from
`src/src/csv_cleaner.py` (shared by `src/src/load_special_programs.py`).
Markers `[z] [c] [x]`, the empty string and `nan` → null; a string containing both `to` and `%`
is a preserved range; commas (only) are removed; a string containing `.` is
parsed with `float()` and rounded when requested, otherwise parsed with
`int()` (unrounded). -/
def cleanNumericRangeSrc (value : Option String) (decimalPlaces : Option ℕ) :
    Option Dec × Option String :=
  match value with
  | none => (none, none)
  | some raw =>
    let vs := pyStrip raw
    if vs = "[z]" ∨ vs = "[c]" ∨ vs = "[x]" ∨ vs = "" ∨ vs = "nan" then (none, none)
    else if pyContains vs "to" ∧ pyContains vs "%" then (none, some vs)
    else
      let cleaned := pyReplace vs "," ""
      if pyContains cleaned "." then
        match pyFloat? cleaned with
        | some num =>
          (some (match decimalPlaces with
                 | some d => pyRoundDec num d
                 | none => num), none)
        | none => (none, none)
      else
        match pyInt? cleaned with
        | some num => (some ⟨num, 0⟩, none)
        | none => (none, none)

/-- `clean_numeric_value(value, decimal_places)` (`return_range=False`) from
`src/src/csv_cleaner.py`. -/
def cleanNumericSrc (value : Option String) (decimalPlaces : Option ℕ) : Option Dec :=
  (cleanNumericRangeSrc value decimalPlaces).1

/-- `clean_numeric_value(value, decimal_places, return_range=True)` from
`database_version_2/src/csv_cleaner.py`: identical to the `src/src` variant
except that the marker list is only `[z]`, `[c]` and the empty string. -/
def cleanNumericRangeV2 (value : Option String) (decimalPlaces : Option ℕ) :
    Option Dec × Option String :=
  match value with
  | none => (none, none)
  | some raw =>
    let vs := pyStrip raw
    if vs = "[z]" ∨ vs = "[c]" ∨ vs = "" then (none, none)
    else if pyContains vs "to" ∧ pyContains vs "%" then (none, some vs)
    else
      let cleaned := pyReplace vs "," ""
      if pyContains cleaned "." then
        match pyFloat? cleaned with
        | some num =>
          (some (match decimalPlaces with
                 | some d => pyRoundDec num d
                 | none => num), none)
        | none => (none, none)
      else
        match pyInt? cleaned with
        | some num => (some ⟨num, 0⟩, none)
        | none => (none, none)

/-- `clean_numeric_value(value, decimal_places)` from
`database_version_2/src/csv_cleaner.py`. -/
def cleanNumericV2 (value : Option String) (decimalPlaces : Option ℕ) : Option Dec :=
  (cleanNumericRangeV2 value decimalPlaces).1

/-- `clean_numeric_value(value, decimal_places, return_range=True)` from
`backend_code/database_src/csv_cleaner(1).py` (the checked-in copy of
`backend_code.database_src.csv_cleaner`): same markers as the `src/src`
variant; a string containing `" to "` is a preserved range; commas **and**
`%` signs are removed; everything is parsed with `float()` and rounded when
requested. -/
def cleanNumericRangeBk (value : Option String) (decimalPlaces : Option ℕ) :
    Option Dec × Option String :=
  match value with
  | none => (none, none)
  | some raw =>
    let vs := pyStrip raw
    if vs = "[z]" ∨ vs = "[c]" ∨ vs = "[x]" ∨ vs = "" ∨ vs = "nan" then (none, none)
    else if pyContains vs " to " then (none, some vs)
    else
      let cleaned := pyReplace (pyReplace vs "," "") "%" ""
      match pyFloat? cleaned with
      | some r =>
        (some (match decimalPlaces with
               | some d => pyRoundDec r d
               | none => r), none)
      | none => (none, none)

/-- `clean_numeric_value(value, decimal_places)` from
`backend_code/database_src/csv_cleaner(1).py`. -/
def cleanNumericBk (value : Option String) (decimalPlaces : Option ℕ) : Option Dec :=
  (cleanNumericRangeBk value decimalPlaces).1

/-! ## CSV structure classification

From `backend_code/database_src/csv_type_identifier.py` and the identical
copy in `src/src/csv_cleaner.py`. -/

/-- `CSVStructureType` — the five known physical layouts plus `unknown`. -/
inductive CSVStructureType where
  | national
  | localAuthority
  | timeSeries
  | regionalTimeSeries
  | specialProgram
  | unknown
  deriving DecidableEq, Repr

/-- `identify_csv_type(csv_path)`, applied to `csv_path.name`.  The first
four groups test `filename.startswith(...)`; T14/T15 are tested with
substring containment (`"T14_" in filename`). -/
def identifyCsvType (filename : String) : CSVStructureType :=
  if ["T1_", "T2_", "T3_"].any (fun p => pyStartsWith filename p) then .national
  else if ["T4", "T5", "T6"].any (fun p => pyStartsWith filename p) then .localAuthority
  else if ["T7_", "T8_"].any (fun p => pyStartsWith filename p) then .specialProgram
  else if ["T9_", "T10_", "T11_"].any (fun p => pyStartsWith filename p) then .timeSeries
  else if pyContains filename "T14_" || pyContains filename "T15_" then .regionalTimeSeries
  else .unknown

/-- The per-layout configuration record of `get_structure_config`.  The
fields modelled are the ones the pipeline reads (`header_indicator`,
`vaccine_col_start`, `identifier_col`, `header_pattern`); the remaining
dictionary keys (`population_col`, `area_name_col`, `region_col`,
`ods_col`, `notes_col`, `transpose_structure`) are never read by the
embedded code paths.  `headerPattern = none` models the explicit Python
`None` stored for the regional time series. -/
structure StructureConfig where
  headerIndicator : String
  vaccineColStart : ℕ
  identifierCol : String
  headerPattern : Option String
  deriving DecidableEq, Repr

/-- `get_structure_config(csv_type)`; `none` models the empty dictionary
returned for `UNKNOWN` (`configs.get(csv_type, {})`). -/
def getStructureConfig : CSVStructureType → Option StructureConfig
  | .national => some ⟨"Geographic area", 3, "area_name", some "Coverage at"⟩
  | .localAuthority => some ⟨"Code", 6, "area_code", some "Coverage at"⟩
  | .timeSeries => some ⟨"Financial year", 3, "year", some "Coverage of"⟩
  | .regionalTimeSeries => some ⟨"Financial year", 2, "year", none⟩
  | .specialProgram => some ⟨"Code", 5, "area_code", some "Coverage at"⟩
  | .unknown => none

/-! ## Data-row classification (`is_data_row_typed`)

Identical in `src/src/csv_cleaner.py` and
`backend_code/database_src/csv_cleaner(1).py`.  A row is represented by its
designated identifier cell (the first column); `none` covers both a missing
first column and a NaN value, each of which the source rejects. -/

/-- The fixed header-keyword set rejected by `is_data_row_typed`. -/
def headerKeywords : List String :=
  ["Geographic", "Coverage", "Financial year", "Local authority",
   "Number aged", "Evaluation", "Code", "Unnamed"]

/-- The regex match `^[ESWN]\d{8}` as in `re.match`: an ONS area-code shaped identifier
(anchored at the start only — trailing characters are allowed). -/
def matchesAreaCode (s : String) : Bool :=
  match s.data with
  | c :: rest =>
    (c = 'E' || c = 'S' || c = 'W' || c = 'N') &&
      decide (8 ≤ rest.length) && (rest.take 8).all Char.isDigit
  | [] => false

/-- The regex match `^\d{4}-\d{4}$` as in `re.match`: a dashed financial-year token
(anchored at both ends). -/
def matchesFinYearDash (s : String) : Bool :=
  let l := s.data
  decide (l.length = 9) && (l.take 4).all Char.isDigit &&
    ((l.drop 4).take 1 = ['-']) && (l.drop 5).all Char.isDigit

/-- The country names accepted for the NATIONAL layout. -/
def countries : List String :=
  ["United Kingdom", "England", "Scotland", "Wales", "Northern Ireland"]

/-- `is_data_row_typed(row, csv_type, first_col_name)` as a function of the
row's identifier cell. -/
def isDataRowTyped (cell : Option String) (csvType : CSVStructureType) : Bool :=
  match cell with
  | none => false
  | some v =>
    if pyStrip v = "" then false
    else
      let vs := pyStrip v
      if headerKeywords.any (fun k => pyContains vs k) then false
      else
        match csvType with
        | .localAuthority => matchesAreaCode vs
        | .national => countries.contains vs
        | .timeSeries => pyContains vs " to " || matchesFinYearDash vs
        | .regionalTimeSeries => pyContains vs " to " || matchesFinYearDash vs
        | .specialProgram => matchesAreaCode vs
        | .unknown => false

/-! ## Value-column extraction (`load_cleaned_csv_typed`)

From `src/src/csv_cleaner.py` (the copy in
`backend_code/database_src/csv_cleaner(1).py`, `load_cleaned_csv`, is
identical).  Only the pure part is embedded: the function of the CSV type
and the list of column headers that yields the extracted value columns, and
the data-row filter applied to the rows. -/

/-- `extract_vaccine_name_typed(header, csv_type)`. -/
def extractVaccineNameTyped (header : String) (csvType : CSVStructureType) : String :=
  let pattern : Option String :=
    match getStructureConfig csvType with
    | some c => c.headerPattern
    | none => some "Coverage at"
  let r := header
  let r :=
    if pattern = some "Coverage of" then pyReplace r "Coverage of " ""
    else if pattern = some "Coverage at" then
      ["Coverage at 12 months ", "Coverage at 24 months ", "Coverage at 5 years ",
       "Number aged 12 months ", "Number aged 24 months "].foldl
        (fun acc p => pyReplace acc p "") r
    else r
  let r := pyReplace r " Prim" ""
  let r := pyReplace r " (%)" ""
  let r := pyReplace r "(%)" ""
  let r := pyStrip r
  if pyContains (pyLower r) "rotavirus" then "Rotavirus" else r

/-- One extracted value column: its index, raw header, and resolved name
(a vaccine name, or a region name for the regional time series). -/
structure ValueColumn where
  colIdx : ℕ
  header : String
  name : String
  deriving DecidableEq, Repr

/-- The value-column extraction loop of `load_cleaned_csv_typed`, as a
function of the CSV type and the column headers.  For
`REGIONAL_TIME_SERIES` columns from `vaccine_col_start` are region names
(skipping notes columns); for every other type — `UNKNOWN` included, which
falls back to the defaults `vaccine_col_start = 3` and pattern
`"Coverage at"` — they are vaccine headers. -/
def extractValueColumns (csvType : CSVStructureType) (headers : List String) :
    List ValueColumn :=
  if csvType = .regionalTimeSeries then
    let start : ℕ :=
      match getStructureConfig csvType with
      | some c => c.vaccineColStart
      | none => 2
    (headers.enum.filter (fun p => decide (start ≤ p.1))).filterMap (fun p =>
      let regionName := pyStrip p.2
      if pyContains (pyLower regionName) "note" || regionName = "" then none
      else some ⟨p.1, regionName, regionName⟩)
  else
    let start : ℕ :=
      match getStructureConfig csvType with
      | some c => c.vaccineColStart
      | none => 3
    (headers.enum.filter (fun p => decide (start ≤ p.1))).filterMap (fun p =>
      if ["Note", "Unnamed", "nan"].any (fun skip => pyContains p.2 skip) then none
      else
        let vaccineName := extractVaccineNameTyped p.2 csvType
        if vaccineName = "" then none
        else some ⟨p.1, p.2, vaccineName⟩)

/-- The data-row filter of `load_cleaned_csv_typed`
(`df[df.apply(is_data_row_typed, ...)]`), as a function of the identifier
cells of the rows. -/
def filterDataRows (csvType : CSVStructureType) (rows : List (Option String)) :
    List (Option String) :=
  rows.filter (fun cell => isDataRowTyped cell csvType)

/-! ## Vaccine name resolution (`database_version_2/src/vaccine_matcher.py`)

`VaccineMatcher.match` with the `CANONICAL_VACCINES` table of the module.  The
instance cache maps each header to the result of the same computation, so
it is observationally transparent and not modelled.  `UNRESOLVED` is the
Python `None`, modelled as `Option.none`. -/

/-- `CANONICAL_VACCINES`: `(vaccine_code, vaccine_name, aliases)`, in source
order (the `description` field is never read by the matcher). -/
def canonicalVaccines : List (String × String × List String) :=
  [("DTaP_IPV_Hib_HepB", "DTaP/IPV/Hib/HepB", ["DTaP/IPV/Hib/HepB Prim", "DTaP IPV Hib HepB"]),
   ("DTaP_IPV_Hib", "DTaP/IPV/Hib", ["DTaP/IPV/Hib Prim"]),
   ("MMR1", "MMR1", ["MMR 1", "MMR dose 1"]),
   ("MMR2", "MMR2", ["MMR 2", "MMR dose 2"]),
   ("PCV1", "PCV1", ["PCV 1", "PCV dose 1", "PCV"]),
   ("PCV_booster", "PCV Booster", ["PCV booster", "PCV boos"]),
   ("Rota", "Rotavirus", ["rota", "Rota"]),
   ("MenB", "MenB", []),
   ("MenB_booster", "MenB Booster", ["MenB booster", "MenB boos"]),
   ("Hib_MenC_booster", "Hib/MenC Booster", ["Hib/MenC booster", "Hib MenC booster"]),
   ("dTaP_IPV_booster", "dTaP/IPV Booster", ["dTaP/IPV booster", "DTaP/IPV booster"]),
   ("HepB", "Hepatitis B", ["HepB", "Hep B"]),
   ("BCG", "BCG", [])]

/-- `_exact_match_index`: `vaccine_name → vaccine_code`, in insertion order
(the names are pairwise distinct, so first-match lookup equals the Python
dict). -/
def exactMatchIndex : List (String × String) :=
  canonicalVaccines.map (fun v => (v.2.1, v.1))

/-- `_alias_index`: `alias → vaccine_code`, in insertion order (the alias
keys are pairwise distinct). -/
def aliasIndex : List (String × String) :=
  canonicalVaccines.flatMap (fun v => v.2.2.map (fun a => (a, v.1)))

/-- `VaccineMatcher._clean_header`. -/
def cleanHeaderMatcher (header : String) : String :=
  let c := pyStrip header
  let c :=
    ["Coverage at 12 months ", "Coverage at 24 months ", "Coverage at 5 years ",
     "Coverage of ", "Number aged 12 months ", "Number aged 24 months ",
     "Number aged 5 years "].foldl (fun acc p => pyReplace acc p "") c
  let c := pyReplace c " Prim" ""
  let c := pyReplace c " (%)" ""
  let c := pyReplace c "(%)" ""
  let c := if pyContains (pyLower c) "rotavirus" then "Rotavirus" else c
  pyStrip c

/-! ### `difflib.SequenceMatcher(None, a, b).ratio()`

The matcher strings are far below difflib's autojunk limit (200
characters) and no junk predicate is passed, so `ratio` is the pure
Ratcliff–Obershelp measure: twice the total size of the recursively chosen
longest matching blocks, divided by the total length.  `find_longest_match`
returns, of all maximal matching blocks, the one starting earliest in `a`
and then earliest in `b`; with no junk this is the lexicographically first
`(i, j)` realising the longest common substring. -/

/-- Length of the longest common run at the heads of two lists. -/
def commonRun : List Char → List Char → ℕ
  | a :: as, b :: bs => if a = b then commonRun as bs + 1 else 0
  | _, _ => 0

/-- Tail-recursive scan for `bestBlock` over the candidate start pairs
`(i, j)`; the accumulator is pattern-matched so that evaluation stays
shallow. -/
def bestBlockGo (a b : List Char) : List (ℕ × ℕ) → ℕ × ℕ × ℕ → ℕ × ℕ × ℕ
  | [], acc => acc
  | (i, j) :: rest, (bi, bj, bk) =>
    let k := commonRun (a.drop i) (b.drop j)
    if bk < k then bestBlockGo a b rest (i, j, k)
    else bestBlockGo a b rest (bi, bj, bk)

/-- `find_longest_match` over whole lists: the lexicographically first
`(i, j)` (first by `i`, then by `j`) whose common run realises the maximal
length, returned as `(i, j, k)`; `(0, 0, 0)` when there is no match. -/
def bestBlock (a b : List Char) : ℕ × ℕ × ℕ :=
  bestBlockGo a b
    ((List.range a.length).flatMap (fun i => (List.range b.length).map (fun j => (i, j))))
    (0, 0, 0)

/-- Total size of the matching blocks of `get_matching_blocks`: take the
longest block, then recurse on the parts before and after it.  The `fuel`
argument only makes the recursion structural: every recursive call strictly
shrinks the `a`-segment, so a fuel of `a.length + 1` is never exhausted. -/
def matchTotalAux : ℕ → List Char → List Char → ℕ
  | 0, _, _ => 0
  | fuel + 1, a, b =>
    let t := bestBlock a b
    if t.2.2 = 0 then 0
    else
      matchTotalAux fuel (a.take t.1) (b.take t.2.1) + t.2.2 +
        matchTotalAux fuel (a.drop (t.1 + t.2.2)) (b.drop (t.2.1 + t.2.2))

/-- Total matched size `M` of `SequenceMatcher(None, a, b)`. -/
def matchTotal (a b : List Char) : ℕ := matchTotalAux (a.length + 1) a b

/-- `SequenceMatcher(None, x, y).ratio()` as an exact rational:
`2M / (|x| + |y|)`. -/
def ratioQ (x y : String) : ℚ :=
  ((2 * matchTotal x.data y.data : ℕ) : ℚ) / ((x.length + y.length : ℕ) : ℚ)

/-- Numerator `2M` of the fuzzy candidate ratio for `(text, name)`, both
lowered. -/
def candNum (text name : String) : ℕ :=
  2 * matchTotal (pyLower text).data (pyLower name).data

/-- Denominator `|a| + |b|` of the fuzzy candidate ratio for
`(text, name)`, both lowered. -/
def candDen (text name : String) : ℕ :=
  (pyLower text).data.length + (pyLower name).data.length

/-- The loop of `VaccineMatcher._fuzzy_match` over `_exact_match_index`.
The state is `(best_match, best_ratio)` with the ratio kept as an exact
fraction `(numerator, denominator)`; the float comparisons of the source
(`ratio > best_ratio`, `ratio >= 0.8`) are modelled exactly by
cross-multiplication — the candidate fractions have denominators far too
small for double rounding to cross `4/5` or to merge two distinct values. -/
def fuzzyFold (text : String) :
    List (String × String) → Option String × ℕ × ℕ → Option String × ℕ × ℕ
  | [], st => st
  | p :: rest, (best, bn, bd) =>
    let a := (pyLower text).data
    let b := (pyLower p.1).data
    let rn := 2 * matchTotal a b
    let rd := a.length + b.length
    if bn * rd < rn * bd ∧ 4 * rd ≤ 5 * rn then
      fuzzyFold text rest (some p.2, rn, rd)
    else
      fuzzyFold text rest (best, bn, bd)

/-- `VaccineMatcher._fuzzy_match(text)`: best match above the 0.8
threshold, `None` otherwise (`best_ratio` starts at `0.0 = 0/1`). -/
def fuzzyMatch (text : String) : Option String :=
  (fuzzyFold text exactMatchIndex (none, 0, 1)).1

/-- `VaccineMatcher.match(header_text)` (the cache layer is
observationally transparent): clean the header, then exact name match,
then alias match, then fuzzy match. -/
def vaccineMatch (headerText : String) : Option String :=
  let cleaned := cleanHeaderMatcher headerText
  match List.lookup cleaned exactMatchIndex with
  | some code => some code
  | none =>
    match List.lookup cleaned aliasIndex with
    | some code => some code
    | none => fuzzyMatch cleaned

/-! ## The fact store and upsert-by-natural-key

Every fact loader writes with the same discipline (e.g.
`load_local_authority.py` lines 145–171,
`EnglandTimeSeriesLoader._process_vaccine_data`): query the fact table by
the natural key; if a row exists, assign its measured fields; otherwise
insert a new row.  A fact table is modelled as a list of
`(natural key, measured fields)` rows; `session.query(...).first()` is
first-match lookup.  During a fact load the dimension tables are read-only,
so the per-cell writes of one file are a fixed list of
`(key, fields)` pairs folded over the store. -/

/-- A fact table: rows of natural key and measured fields. -/
def FactStore (K F : Type) : Type := List (K × F)

/-- `session.query(T).filter_by(natural key).first()`. -/
def lookupFact {K F : Type} [DecidableEq K] (s : FactStore K F) (k : K) : Option F :=
  match s with
  | [] => none
  | (k', v) :: rest => if k' = k then some v else lookupFact rest k

/-- Whether the store has a row with the given natural key. -/
def hasKey {K F : Type} [DecidableEq K] (s : FactStore K F) (k : K) : Bool :=
  match s with
  | [] => false
  | (k', _) :: rest => if k' = k then true else hasKey rest k

/-- The loader write: update the measured fields of the existing row in place if
the key is present, else insert a new row. -/
def upsertFact {K F : Type} [DecidableEq K] (s : FactStore K F) (k : K) (v : F) :
    FactStore K F :=
  match s with
  | [] => [(k, v)]
  | (k', v') :: rest =>
    if k' = k then (k', v) :: rest else (k', v') :: upsertFact rest k v

/-- Loading one extracted file: fold its `(key, fields)` writes over the
store. -/
def loadFacts {K F : Type} [DecidableEq K] (s : FactStore K F) (file : List (K × F)) :
    FactStore K F :=
  file.foldl (fun st kv => upsertFact st kv.1 kv.2) s

/-- Natural key of a `national_coverage` row
(`backend_code/database_src/models.py`, unique constraint on
`year_id, area_code, cohort_id, vaccine_id`). -/
structure NationalFactKey where
  yearId : ℕ
  areaCode : String
  cohortId : ℕ
  vaccineId : ℕ
  deriving DecidableEq, Repr

/-- Measured fields of a `national_coverage` row. -/
structure NationalMeasures where
  eligiblePopulation : Option Dec
  coveragePercentage : Option Dec
  deriving DecidableEq, Repr

/-! ## Per-cell stored coverage values of the five fact loaders

Each function maps one raw coverage cell to what the loader stores for it
(after its own validation, if any); `none` at the outer level means the
loader skips the record for that cell. -/

/-- Range guard `0 <= coverage_pct <= 100` used by four of the five
loaders, on the exact decimal value (`0 ≤ m` and `m ≤ 100·10^e` iff the
value is within `[0, 100]`). -/
def rangeOkDec (d : Dec) : Bool :=
  decide (0 ≤ d.m) && decide (d.m ≤ 100 * 10 ^ d.e)

/-- `load_national_coverage_from_csv` (`database_version_2/src/`):
`coverage_pct = clean_numeric_value(coverage_value, decimal_places=2)` is
stored as `coverage_percentage` with **no** range validation. -/
def nationalStoredCoverage (cell : Option String) : Option Dec :=
  cleanNumericV2 cell (some 2)

/-- `load_special_programs_from_csv` (`src/src/load_special_programs.py`):
clean with 2 decimal places, then
`if coverage_pct is not None and not (0 <= coverage_pct <= 100): continue`.
`none` = record skipped; `some v` = record written with coverage `v`. -/
def specialStoredCoverage (cell : Option String) : Option (Option Dec) :=
  match cleanNumericSrc cell (some 2) with
  | some q => if rangeOkDec q then some (some q) else none
  | none => some none

/-- `EnglandTimeSeriesLoader._process_vaccine_data`
(`backend_code/database_src/load_england_time_series_refactored.py`): clean
with 2 decimal places, skip the record when the value is outside
`[0, 100]`. -/
def englandStoredCoverage (cell : Option String) : Option (Option Dec) :=
  match cleanNumericBk cell (some 2) with
  | some q => if rangeOkDec q then some (some q) else none
  | none => some none

/-- Modelled from the spec: `load_regional_time_series.py` imports
`clean_numeric_value` from `src/layer0_data_ingestion/csv_cleaner`, a module
absent from the repository snapshot; per §4.4 of the spec its cleaner is
the `src` variant.  The loader itself (present in the repository) cleans
with 2 decimal places and skips the record when the value is outside
`[0, 100]`. -/
def regionalStoredCoverage (cell : Option String) : Option (Option Dec) :=
  match cleanNumericSrc cell (some 2) with
  | some q => if rangeOkDec q then some (some q) else none
  | none => some none

/-- `load_local_authority_coverage_from_paired_csvs`
(`database_version_2/src/load_local_authority.py`): clean with 2 decimal
places; the value is kept only when `0 <= raw_pct <= 100`, else the stored
`coverage_percentage` is null. -/
def laStoredCoverage (cell : Option String) : Option Dec :=
  match cleanNumericV2 cell (some 2) with
  | some q => if rangeOkDec q then some q else none
  | none => none

/-! ## Claim-side (specification-worded) predicates

Used to compare the wording of the specification with the embedded code. -/

/-- The spec's financial-year token `"<YYYY> to <YYYY>"`: exactly four
digits, the literal `" to "`, four digits. -/
def specFinYearSpaced (s : String) : Bool :=
  let l := s.data
  decide (l.length = 12) && (l.take 4).all Char.isDigit &&
    decide ((l.drop 4).take 4 = " to ".data) && (l.drop 8).all Char.isDigit

/-- The row-classification contract exactly as the claim states it: reject
an empty/missing identifier, reject header keywords, then accept by
identifier shape — for TIME_SERIES / REGIONAL_TIME_SERIES a financial-year
token `"<YYYY> to <YYYY>"` or `"YYYY-YYYY"`. -/
def specRowRule (cell : Option String) (csvType : CSVStructureType) : Bool :=
  match cell with
  | none => false
  | some v =>
    if pyStrip v = "" then false
    else
      let vs := pyStrip v
      if headerKeywords.any (fun k => pyContains vs k) then false
      else
        match csvType with
        | .localAuthority => matchesAreaCode vs
        | .specialProgram => matchesAreaCode vs
        | .national => countries.contains vs
        | .timeSeries => specFinYearSpaced vs || matchesFinYearDash vs
        | .regionalTimeSeries => specFinYearSpaced vs || matchesFinYearDash vs
        | .unknown => false

/-- The row-classification contract amended as the code forces: for the two
time-series layouts the identifier is accepted when it contains the
substring `" to "` anywhere, or matches `^\d{4}-\d{4}$`. -/
def specRowRuleAmended (cell : Option String) (csvType : CSVStructureType) : Bool :=
  match cell with
  | none => false
  | some v =>
    if pyStrip v = "" then false
    else
      let vs := pyStrip v
      if headerKeywords.any (fun k => pyContains vs k) then false
      else
        match csvType with
        | .localAuthority => matchesAreaCode vs
        | .specialProgram => matchesAreaCode vs
        | .national => countries.contains vs
        | .timeSeries => pyContains vs " to " || matchesFinYearDash vs
        | .regionalTimeSeries => pyContains vs " to " || matchesFinYearDash vs
        | .unknown => false

/-- The classification contract amended as the code forces: table-ID
**prefixes** `T1_/T2_/T3_` → NATIONAL, `T4/T5/T6` → LOCAL_AUTHORITY,
`T7_/T8_` → SPECIAL_PROGRAM, `T9_/T10_/T11_` → TIME_SERIES, tried in that
order; then `T14_`/`T15_` **anywhere in the name** → REGIONAL_TIME_SERIES;
otherwise UNKNOWN. -/
def specClassifyAmended (filename : String) : CSVStructureType :=
  if pyStartsWith filename "T1_" || pyStartsWith filename "T2_" ||
      pyStartsWith filename "T3_" then .national
  else if pyStartsWith filename "T4" || pyStartsWith filename "T5" ||
      pyStartsWith filename "T6" then .localAuthority
  else if pyStartsWith filename "T7_" || pyStartsWith filename "T8_" then .specialProgram
  else if pyStartsWith filename "T9_" || pyStartsWith filename "T10_" ||
      pyStartsWith filename "T11_" then .timeSeries
  else if pyContains filename "T14_" || pyContains filename "T15_" then .regionalTimeSeries
  else .unknown

/-! ## Inputs for the shape of `clean_numeric_value` agreement

`goodShape` captures the raw strings on which the two `clean_numeric_value`
implementations behave identically: after stripping, a non-empty string of
digits, thousands-separator commas and at most one decimal point, with at
least one digit. -/

/-- Characters of a plain comma-grouped decimal numeral. -/
def goodCell (c : Char) : Bool := c.isDigit || c = ',' || c = '.'

/-- A raw cell string whose stripped form is a plain comma-grouped numeral:
non-empty, only digits/commas/periods, at most one period, at least one
digit. -/
def goodShape (s : String) : Prop :=
  pyStripList s.data ≠ [] ∧
  (pyStripList s.data).all goodCell = true ∧
  ((pyStripList s.data).filter (fun c => decide (c = '.'))).length ≤ 1 ∧
  (pyStripList s.data).any Char.isDigit = true

/-! ## Concrete fixtures for the upsert witness -/

/-- A one-row national coverage store (England, one vaccine). -/
def exampleKey : NationalFactKey := ⟨1, "E92000001", 1, 2⟩

/-- Measured fields already stored for `exampleKey`. -/
def exampleOldMeasures : NationalMeasures := ⟨some ⟨600000, 0⟩, some ⟨9250, 2⟩⟩

/-- Superseding measured fields for `exampleKey`. -/
def exampleNewMeasures : NationalMeasures := ⟨some ⟨601000, 0⟩, some ⟨9312, 2⟩⟩

/-- A store already holding a row for `exampleKey`. -/
def exampleStore : FactStore NationalFactKey NationalMeasures :=
  [(exampleKey, exampleOldMeasures)]

/-- One extracted file writing `exampleKey`. -/
def exampleFile : List (NationalFactKey × NationalMeasures) :=
  [(exampleKey, exampleNewMeasures)]

/-! Theorems.  Upsert-by-natural-key (C2). -/

theorem lookupFact_upsert_self {K F : Type} [DecidableEq K]
    (s : FactStore K F) (k : K) (v : F) :
    lookupFact (upsertFact s k v) k = some v := by
  induction s with
  | nil => simp [upsertFact, lookupFact]
  | cons h t ih =>
    obtain ⟨k', v'⟩ := h
    by_cases hk : k' = k
    · subst hk
      simp [upsertFact, lookupFact]
    · simp [upsertFact, lookupFact, hk, ih]

theorem lookupFact_upsert_ne {K F : Type} [DecidableEq K]
    (s : FactStore K F) (k k' : K) (v : F) (h : k' ≠ k) :
    lookupFact (upsertFact s k v) k' = lookupFact s k' := by
  induction s with
  | nil => simp [upsertFact, lookupFact, Ne.symm h]
  | cons p t ih =>
    obtain ⟨a, b⟩ := p
    by_cases ha : a = k
    · subst ha
      simp [upsertFact, lookupFact, Ne.symm h]
    · by_cases ha' : a = k'
      · subst ha'
        simp [upsertFact, lookupFact, ha]
      · simp [upsertFact, lookupFact, ha, ha', ih]

theorem length_upsert_of_hasKey {K F : Type} [DecidableEq K]
    (s : FactStore K F) (k : K) (v : F) (h : hasKey s k = true) :
    (upsertFact s k v).length = s.length := by
  induction s with
  | nil => simp [hasKey] at h
  | cons p t ih =>
    obtain ⟨a, b⟩ := p
    by_cases ha : a = k
    · simp [upsertFact, ha, List.length_cons]
    · simp only [hasKey, if_neg ha] at h
      simp [upsertFact, ha, List.length_cons, ih h]

theorem hasKey_upsert_self {K F : Type} [DecidableEq K]
    (s : FactStore K F) (k : K) (v : F) :
    hasKey (upsertFact s k v) k = true := by
  induction s with
  | nil => simp [upsertFact, hasKey]
  | cons p t ih =>
    obtain ⟨a, b⟩ := p
    by_cases ha : a = k
    · simp [upsertFact, hasKey, ha]
    · simp [upsertFact, hasKey, ha, ih]

theorem hasKey_upsert_mono {K F : Type} [DecidableEq K]
    (s : FactStore K F) (k k' : K) (v : F) (h : hasKey s k' = true) :
    hasKey (upsertFact s k v) k' = true := by
  induction s with
  | nil => simp [hasKey] at h
  | cons p t ih =>
    obtain ⟨a, b⟩ := p
    by_cases ha : a = k
    · subst ha
      by_cases ha' : a = k'
      · simp [upsertFact, hasKey, ha']
      · simp only [hasKey, if_neg ha'] at h
        simp [upsertFact, hasKey, ha', h]
    · by_cases ha' : a = k'
      · subst ha'
        simp [upsertFact, hasKey, ha]
      · simp only [hasKey, if_neg ha'] at h
        simp [upsertFact, hasKey, ha, ha', ih h]

theorem upsert_upsert_same {K F : Type} [DecidableEq K]
    (s : FactStore K F) (k : K) (v₁ v₂ : F) :
    upsertFact (upsertFact s k v₁) k v₂ = upsertFact s k v₂ := by
  induction s with
  | nil => simp [upsertFact]
  | cons p t ih =>
    obtain ⟨a, b⟩ := p
    by_cases ha : a = k
    · simp [upsertFact, ha]
    · simp [upsertFact, ha, ih]

theorem upsert_comm_of_hasKey {K F : Type} [DecidableEq K]
    (s : FactStore K F) (k k' : K) (v u : F) (hne : k ≠ k') (hk : hasKey s k = true) :
    upsertFact (upsertFact s k v) k' u = upsertFact (upsertFact s k' u) k v := by
  induction s with
  | nil => simp [hasKey] at hk
  | cons p t ih =>
    obtain ⟨a, b⟩ := p
    by_cases ha : a = k
    · subst ha
      simp [upsertFact, hne]
    · by_cases ha' : a = k'
      · subst ha'
        simp [upsertFact, ha]
      · simp only [hasKey, if_neg ha] at hk
        simp [upsertFact, ha, ha', ih hk]

theorem loadFacts_cons {K F : Type} [DecidableEq K]
    (s : FactStore K F) (k : K) (v : F) (t : List (K × F)) :
    loadFacts s ((k, v) :: t) = loadFacts (upsertFact s k v) t := rfl

theorem hasKey_loadFacts_mono {K F : Type} [DecidableEq K]
    (f : List (K × F)) (s : FactStore K F) (k : K) (h : hasKey s k = true) :
    hasKey (loadFacts s f) k = true := by
  induction f generalizing s with
  | nil => exact h
  | cons p t ih =>
    obtain ⟨a, b⟩ := p
    rw [loadFacts_cons]
    exact ih _ (hasKey_upsert_mono _ _ _ _ h)

theorem lookupFact_loadFacts_of_not_mem {K F : Type} [DecidableEq K]
    (f : List (K × F)) (s : FactStore K F) (k : K) (v : F)
    (h : lookupFact s k = some v) (hmem : ∀ p ∈ f, p.1 ≠ k) :
    lookupFact (loadFacts s f) k = some v := by
  induction f generalizing s with
  | nil => exact h
  | cons p t ih =>
    obtain ⟨a, b⟩ := p
    rw [loadFacts_cons]
    refine ih _ ?_ (fun q hq => hmem q (List.mem_cons_of_mem _ hq))
    rw [lookupFact_upsert_ne]
    · exact h
    · exact fun he => hmem (a, b) (List.mem_cons_self _ _) he.symm

theorem upsert_eq_self_of_lookup {K F : Type} [DecidableEq K]
    (s : FactStore K F) (k : K) (v : F) (h : lookupFact s k = some v) :
    upsertFact s k v = s := by
  induction s with
  | nil => simp [lookupFact] at h
  | cons p t ih =>
    obtain ⟨a, b⟩ := p
    by_cases ha : a = k
    · subst ha
      have hb : b = v := by simpa [lookupFact] using h
      simp [upsertFact, hb]
    · simp only [lookupFact, if_neg ha] at h
      simp [upsertFact, ha, ih h]

theorem loadFacts_upsert_absorb {K F : Type} [DecidableEq K]
    (t : List (K × F)) (s : FactStore K F) (k : K) (v : F)
    (hk : hasKey s k = true) (hmem : ∃ q ∈ t, q.1 = k) :
    loadFacts (upsertFact s k v) t = loadFacts s t := by
  induction t generalizing s v with
  | nil => obtain ⟨q, hq, _⟩ := hmem; simp at hq
  | cons p r ih =>
    obtain ⟨a, b⟩ := p
    by_cases ha : a = k
    · subst ha
      rw [loadFacts_cons, loadFacts_cons, upsert_upsert_same]
    · have hmem' : ∃ q ∈ r, q.1 = k := by
        obtain ⟨q, hq, hq1⟩ := hmem
        rcases List.mem_cons.mp hq with h1 | h1
        · rw [h1] at hq1
          exact absurd hq1 ha
        · exact ⟨q, h1, hq1⟩
      rw [loadFacts_cons, loadFacts_cons,
        upsert_comm_of_hasKey _ _ _ _ _ (fun he => ha he.symm) hk]
      exact ih _ _ (hasKey_upsert_mono _ _ _ _ hk) hmem'

theorem loadFacts_idem {K F : Type} [DecidableEq K]
    (s : FactStore K F) (f : List (K × F)) :
    loadFacts (loadFacts s f) f = loadFacts s f := by
  induction f generalizing s with
  | nil => rfl
  | cons p t ih =>
    obtain ⟨k, v⟩ := p
    rw [loadFacts_cons]
    by_cases hmem : ∃ q ∈ t, q.1 = k
    · rw [loadFacts_cons]
      rw [loadFacts_upsert_absorb t _ k v
        (hasKey_loadFacts_mono t _ k (hasKey_upsert_self s k v)) hmem]
      exact ih _
    · push_neg at hmem
      rw [loadFacts_cons,
        upsert_eq_self_of_lookup _ k v
          (lookupFact_loadFacts_of_not_mem t _ k v (lookupFact_upsert_self s k v) hmem)]
      exact ih _

/-- **C2**: for every fact variant (stated for any natural-key and
measured-field types with decidable key equality, which covers the key
tuples of the five variants), a write whose key already has a fact row updates the
measured fields of that row in place — same row count, the key maps to the new
fields, all other keys unchanged — and loading the same extracted file twice
leaves the store exactly as loading it once. -/
theorem upsert_updates_in_place_and_double_load_idempotent
    {K F : Type} [DecidableEq K]
    (s : FactStore K F) (k : K) (v : F) (file : List (K × F))
    (h : hasKey s k = true) :
    ((upsertFact s k v).length = s.length ∧
      lookupFact (upsertFact s k v) k = some v ∧
      ∀ k', k' ≠ k → lookupFact (upsertFact s k v) k' = lookupFact s k') ∧
    loadFacts (loadFacts s file) file = loadFacts s file :=
  ⟨⟨length_upsert_of_hasKey s k v h, lookupFact_upsert_self s k v,
    fun k' hk' => lookupFact_upsert_ne s k k' v hk'⟩,
   loadFacts_idem s file⟩

/-- Witness for C2 at a concrete national-coverage store. -/
theorem upsert_updates_in_place_and_double_load_idempotent_witness :
    hasKey exampleStore exampleKey = true ∧
    (((upsertFact exampleStore exampleKey exampleNewMeasures).length = exampleStore.length ∧
      lookupFact (upsertFact exampleStore exampleKey exampleNewMeasures) exampleKey =
        some exampleNewMeasures ∧
      ∀ k', k' ≠ exampleKey →
        lookupFact (upsertFact exampleStore exampleKey exampleNewMeasures) k' =
          lookupFact exampleStore k') ∧
    loadFacts (loadFacts exampleStore exampleFile) exampleFile =
      loadFacts exampleStore exampleFile) :=
  ⟨by decide,
   upsert_updates_in_place_and_double_load_idempotent
     exampleStore exampleKey exampleNewMeasures exampleFile (by decide)⟩

/-! ## Coverage-percentage range (C1) -/

/-- `rangeOkDec` is exactly the loader guard `0 <= coverage_pct <= 100` on
the value of the decimal. -/
theorem rangeOkDec_iff (d : Dec) :
    rangeOkDec d = true ↔ (0 ≤ Dec.toQ d ∧ Dec.toQ d ≤ 100) := by
  have hpow : (0 : ℚ) < 10 ^ d.e := by positivity
  rw [rangeOkDec, Dec.toQ, Bool.and_eq_true, decide_eq_true_eq, decide_eq_true_eq,
    le_div_iff₀ hpow, div_le_iff₀ hpow, zero_mul]
  constructor
  · rintro ⟨h1, h2⟩
    exact ⟨by exact_mod_cast h1, by exact_mod_cast h2⟩
  · rintro ⟨h1, h2⟩
    exact ⟨by exact_mod_cast h1, by exact_mod_cast h2⟩

/-- The four loaders that do validate store only in-range coverage values
(contrast with C1's national loader). -/
theorem validating_loaders_coverage_in_range (cell : Option String) (q : Dec) :
    (specialStoredCoverage cell = some (some q) → 0 ≤ Dec.toQ q ∧ Dec.toQ q ≤ 100) ∧
    (englandStoredCoverage cell = some (some q) → 0 ≤ Dec.toQ q ∧ Dec.toQ q ≤ 100) ∧
    (regionalStoredCoverage cell = some (some q) → 0 ≤ Dec.toQ q ∧ Dec.toQ q ≤ 100) ∧
    (laStoredCoverage cell = some q → 0 ≤ Dec.toQ q ∧ Dec.toQ q ≤ 100) := by
  refine ⟨?_, ?_, ?_, ?_⟩ <;> intro h
  · unfold specialStoredCoverage at h
    cases hc : cleanNumericSrc cell (some 2) with
    | none => rw [hc] at h; simp at h
    | some d =>
      rw [hc] at h
      by_cases hr : rangeOkDec d = true
      · simp [hr] at h
        subst h
        exact (rangeOkDec_iff d).mp hr
      · simp [hr] at h
  · unfold englandStoredCoverage at h
    cases hc : cleanNumericBk cell (some 2) with
    | none => rw [hc] at h; simp at h
    | some d =>
      rw [hc] at h
      by_cases hr : rangeOkDec d = true
      · simp [hr] at h
        subst h
        exact (rangeOkDec_iff d).mp hr
      · simp [hr] at h
  · unfold regionalStoredCoverage at h
    cases hc : cleanNumericSrc cell (some 2) with
    | none => rw [hc] at h; simp at h
    | some d =>
      rw [hc] at h
      by_cases hr : rangeOkDec d = true
      · simp [hr] at h
        subst h
        exact (rangeOkDec_iff d).mp hr
      · simp [hr] at h
  · unfold laStoredCoverage at h
    cases hc : cleanNumericV2 cell (some 2) with
    | none => rw [hc] at h; simp at h
    | some d =>
      rw [hc] at h
      by_cases hr : rangeOkDec d = true
      · simp [hr] at h
        subst h
        exact (rangeOkDec_iff d).mp hr
      · simp [hr] at h

/-- **C1** (code bug): on a national sheet data row, a coverage cell `"250"`
is stored as `coverage_percentage = 250` by the national loader — no range
validation is applied — while the sibling special-program loader skips the
same value; `250` is outside `[0, 100]`. -/
theorem national_loader_stores_out_of_range_coverage :
    nationalStoredCoverage (some "250") = some ⟨250, 0⟩ ∧
    specialStoredCoverage (some "250") = none ∧
    (100 : ℚ) < Dec.toQ ⟨250, 0⟩ := by
  refine ⟨by decide, by decide, ?_⟩
  norm_num [Dec.toQ]

/-! ## Filename classification (C3) -/

/-- **C3** (counterexample): the classifier matches table IDs by
`startswith`, so a name carrying any prefix before the table ID — the
claim's `"..._T4a_UTLA12m.csv"` / `"..._T1_UK12m.csv"`, and equally the
repository's own sheet names — classifies as UNKNOWN, not as
LOCAL_AUTHORITY / NATIONAL. -/
theorem classify_prefixed_table_ids_are_unknown :
    identifyCsvType "..._T4a_UTLA12m.csv" = .unknown ∧
    identifyCsvType "cover-anual-data-tables-2024-to-2025_T4a_UTLA12m.csv" = .unknown ∧
    identifyCsvType "..._T1_UK12m.csv" = .unknown ∧
    identifyCsvType "cover-anual-data-tables-2024-to-2025_T1_UK12m.csv" = .unknown ∧
    CSVStructureType.unknown ≠ .localAuthority ∧
    CSVStructureType.unknown ≠ .national := by
  refine ⟨by decide, by decide, by decide, by decide, by decide, by decide⟩

/-- **C3** (amended): the classifier maps a name to its variant by
`startswith` on the table-ID prefixes (`T1_/T2_/T3_` NATIONAL, `T4/T5/T6`
LOCAL_AUTHORITY, `T7_/T8_` SPECIAL_PROGRAM, `T9_/T10_/T11_` TIME_SERIES, in
that order) and by **substring containment** of `T14_`/`T15_` for
REGIONAL_TIME_SERIES; anything else is UNKNOWN.  In particular
`classify("T4a_UTLA12m.csv") = LOCAL_AUTHORITY`,
`classify("..._T14_RegDTaP24m.csv") = REGIONAL_TIME_SERIES`,
`classify("T1_UK12m.csv") = NATIONAL`, and
`classify("unknown_file.csv") = UNKNOWN`. -/
theorem identify_csv_type_amended :
    identifyCsvType "T4a_UTLA12m.csv" = .localAuthority ∧
    identifyCsvType "..._T14_RegDTaP24m.csv" = .regionalTimeSeries ∧
    identifyCsvType "cover-anual-data-tables-2024-to-2025_T14_RegDTaP24m.csv" =
      .regionalTimeSeries ∧
    identifyCsvType "T1_UK12m.csv" = .national ∧
    identifyCsvType "unknown_file.csv" = .unknown ∧
    ∀ filename : String, identifyCsvType filename = specClassifyAmended filename := by
  refine ⟨by decide, by decide, by decide, by decide, by decide, ?_⟩
  intro fn
  simp only [identifyCsvType, specClassifyAmended, List.any_cons, List.any_nil,
    Bool.or_false, Bool.or_assoc]

/-! ## UNKNOWN handling (C4) -/

/-- The row classifier rejects every row under the UNKNOWN type. -/
theorem isDataRowTyped_unknown_false (cell : Option String) :
    isDataRowTyped cell .unknown = false := by
  cases cell with
  | none => rfl
  | some v => simp [isDataRowTyped]

/-- **C4** (counterexample): under UNKNOWN, `load_cleaned_csv_typed` does
not refuse a layout — with the fallback defaults (`vaccine_col_start = 3`,
pattern `"Coverage at"`) it still extracts value columns. -/
theorem unknown_type_still_extracts_value_columns :
    extractValueColumns .unknown ["Geographic area", "Notes", "Eligible population", "MMR1"]
      ≠ [] := by decide

/-- **C4** (amended): an UNKNOWN file yields **no data rows** (the row
classifier rejects every row) and has no configuration record, but the
value-column extraction does not refuse: it falls back to the default
layout (columns from index 3, `"Coverage at"` header pattern) and can still
extract value columns. -/
theorem unknown_type_extraction_amended :
    (∀ rows : List (Option String), filterDataRows .unknown rows = []) ∧
    getStructureConfig .unknown = none ∧
    extractValueColumns .unknown ["Geographic area", "Notes", "Eligible population", "MMR1"] =
      [⟨3, "MMR1", "MMR1"⟩] := by
  refine ⟨?_, rfl, by decide⟩
  intro rows
  induction rows with
  | nil => rfl
  | cons c t ih =>
    simp only [filterDataRows, List.filter_cons, isDataRowTyped_unknown_false] at *
    simp [ih]

/-! ## Data-row classification (C6) -/

/-- **C6** (counterexample): under TIME_SERIES the code accepts any
identifier containing the substring `" to "` — here `"a to b"`, which is
not a financial-year token of the claimed shape. -/
theorem time_series_row_accepts_non_year_token :
    isDataRowTyped (some "a to b") .timeSeries = true ∧
    specRowRule (some "a to b") .timeSeries = false := by
  refine ⟨by decide, by decide⟩

/-- **C6** (amended): the row classifier applies, in order: non-empty and
not whitespace-only identifier; none of the fixed header keywords; then the
variant shape — `^[ESWN]\d{8}` for LOCAL_AUTHORITY / SPECIAL_PROGRAM, one of
the five country names for NATIONAL, and for TIME_SERIES /
REGIONAL_TIME_SERIES an identifier that **contains `" to "` anywhere** or
matches `^\d{4}-\d{4}$`. -/
theorem is_data_row_typed_amended :
    isDataRowTyped (some "E10000019") .localAuthority = true ∧
    isDataRowTyped (some "Geographic area") .localAuthority = false ∧
    isDataRowTyped (some "") .localAuthority = false ∧
    ∀ (cell : Option String) (t : CSVStructureType),
      isDataRowTyped cell t = specRowRuleAmended cell t := by
  refine ⟨by decide, by decide, by decide, ?_⟩
  intro cell t
  cases cell with
  | none => rfl
  | some v => cases t <;> rfl

/-! ## Vaccine name resolution (C5) -/

theorem ratioQ_eq_cand (text name : String) :
    ratioQ (pyLower text) (pyLower name) =
      (candNum text name : ℚ) / (candDen text name : ℚ) := rfl

theorem candDen_pos (text name : String) (h : name ≠ "") : 0 < candDen text name := by
  have hd : name.data ≠ [] := by
    intro hd
    apply h
    cases name with
    | mk l =>
      cases hd
      rfl
  have : 0 < name.data.length := List.length_pos.mpr hd
  have hlow : (pyLower name).data.length = name.data.length := by simp [pyLower]
  unfold candDen
  omega

theorem fuzzyFold_none_start (text : String) (l : List (String × String)) :
    ∀ st : Option String × ℕ × ℕ, (fuzzyFold text l st).1 = none → st.1 = none := by
  induction l with
  | nil => exact fun st h => h
  | cons p rest ih =>
    intro st h
    obtain ⟨best, bn, bd⟩ := st
    simp only [fuzzyFold] at h
    split at h
    · simpa using ih _ h
    · exact ih _ h

theorem fuzzyFold_none_spec (text : String) (l : List (String × String)) :
    ∀ (st : Option String × ℕ × ℕ),
      (fuzzyFold text l st).1 = none →
      fuzzyFold text l st = st ∧
      ∀ p ∈ l,
        ¬(st.2.1 * candDen text p.1 < candNum text p.1 * st.2.2 ∧
          4 * candDen text p.1 ≤ 5 * candNum text p.1) := by
  induction l with
  | nil => exact fun st _ => ⟨rfl, by simp⟩
  | cons p rest ih =>
    intro st h
    obtain ⟨best, bn, bd⟩ := st
    simp only [fuzzyFold] at h ⊢
    split at h
    next hcond =>
      have := fuzzyFold_none_start text rest _ h
      simp at this
    next hcond =>
      obtain ⟨heq, hrest⟩ := ih _ h
      rw [if_neg hcond, heq]
      refine ⟨rfl, ?_⟩
      intro q hq
      rcases List.mem_cons.mp hq with h1 | h1
      · subst h1
        simpa [candNum, candDen] using hcond
      · exact hrest q h1

theorem fuzzyFold_mono (text : String) (l : List (String × String)) :
    ∀ st : Option String × ℕ × ℕ,
      (∀ p ∈ l, p.1 ≠ "") → 0 < st.2.2 →
      0 < (fuzzyFold text l st).2.2 ∧
      (st.2.1 : ℚ) / (st.2.2 : ℚ) ≤
        ((fuzzyFold text l st).2.1 : ℚ) / ((fuzzyFold text l st).2.2 : ℚ) := by
  induction l with
  | nil => exact fun st _ hbd => ⟨hbd, le_refl _⟩
  | cons p rest ih =>
    intro st hl hbd
    obtain ⟨best, bn, bd⟩ := st
    simp only [fuzzyFold]
    split
    next hcond =>
      have hrdpos : 0 < candDen text p.1 :=
        candDen_pos text p.1 (hl p (List.mem_cons_self _ _))
      have hrd : 0 < (pyLower text).data.length + (pyLower p.1).data.length := by
        simpa [candDen] using hrdpos
      have step := ih (some p.2, 2 * matchTotal (pyLower text).data (pyLower p.1).data,
        (pyLower text).data.length + (pyLower p.1).data.length)
        (fun q hq => hl q (List.mem_cons_of_mem _ hq)) hrd
      refine ⟨step.1, le_trans ?_ step.2⟩
      have h1 : (bn : ℚ) * ((pyLower text).data.length + (pyLower p.1).data.length : ℕ) ≤
          (2 * matchTotal (pyLower text).data (pyLower p.1).data : ℕ) * (bd : ℚ) := by
        exact_mod_cast le_of_lt hcond.1
      rw [div_le_div_iff₀ (by exact_mod_cast hbd) (by exact_mod_cast hrd)]
      exact h1
    next hcond =>
      exact ih _ (fun q hq => hl q (List.mem_cons_of_mem _ hq)) hbd

theorem fuzzyFold_dominates (text : String) (l : List (String × String)) :
    ∀ st : Option String × ℕ × ℕ,
      (∀ p ∈ l, p.1 ≠ "") → 0 < st.2.2 →
      ∀ q ∈ l,
        (candNum text q.1 : ℚ) / (candDen text q.1 : ℚ) ≤
          ((fuzzyFold text l st).2.1 : ℚ) / ((fuzzyFold text l st).2.2 : ℚ) ∨
        (candNum text q.1 : ℚ) / (candDen text q.1 : ℚ) < 4 / 5 := by
  induction l with
  | nil => intro st _ _ q hq; simp at hq
  | cons p rest ih =>
    intro st hl hbd q hq
    obtain ⟨best, bn, bd⟩ := st
    have hrestne : ∀ r ∈ rest, r.1 ≠ "" := fun r hr => hl r (List.mem_cons_of_mem _ hr)
    simp only [fuzzyFold]
    rcases List.mem_cons.mp hq with h1 | h1
    · subst h1
      have hrdpos : 0 < candDen text q.1 :=
        candDen_pos text q.1 (hl q (List.mem_cons_self _ _))
      have hrd : 0 < (pyLower text).data.length + (pyLower q.1).data.length := by
        simpa [candDen] using hrdpos
      split
      next hcond =>
        left
        have step := fuzzyFold_mono text rest
          (some q.2, 2 * matchTotal (pyLower text).data (pyLower q.1).data,
            (pyLower text).data.length + (pyLower q.1).data.length) hrestne hrd
        refine le_trans (le_of_eq ?_) step.2
        simp [candNum, candDen]
      next hcond =>
        rcases Decidable.not_and_iff_or_not.mp hcond with hc1 | hc2
        · left
          have step := fuzzyFold_mono text rest (best, bn, bd) hrestne hbd
          refine le_trans ?_ step.2
          rw [div_le_div_iff₀ (by exact_mod_cast hrdpos) (by exact_mod_cast hbd)]
          have : 2 * matchTotal (pyLower text).data (pyLower q.1).data * bd ≤
              bn * ((pyLower text).data.length + (pyLower q.1).data.length) :=
            Nat.le_of_not_lt hc1
          have h2 : (candNum text q.1 : ℕ) * bd ≤ bn * candDen text q.1 := by
            simpa [candNum, candDen] using this
          exact_mod_cast h2
        · right
          have : 5 * candNum text q.1 < 4 * candDen text q.1 := by
            have := Nat.lt_of_not_le hc2
            simpa [candNum, candDen] using this
          rw [div_lt_div_iff₀ (by exact_mod_cast hrdpos) (by norm_num : (0:ℚ) < 5)]
          have hq5 : (5 * candNum text q.1 : ℚ) < 4 * candDen text q.1 := by
            exact_mod_cast this
          push_cast at hq5 ⊢
          linarith
    · split
      next hcond =>
        have hrdpos : 0 < candDen text p.1 :=
          candDen_pos text p.1 (hl p (List.mem_cons_self _ _))
        have hrd : 0 < (pyLower text).data.length + (pyLower p.1).data.length := by
          simpa [candDen] using hrdpos
        exact ih _ hrestne hrd q h1
      next hcond =>
        exact ih _ hrestne hbd q h1

theorem fuzzyFold_some_provenance (text : String) (l : List (String × String)) :
    ∀ (st : Option String × ℕ × ℕ) (c : String),
      (fuzzyFold text l st).1 = some c →
      (st.1 = some c ∧ (fuzzyFold text l st).2 = st.2) ∨
      ∃ p ∈ l, p.2 = c ∧
        (fuzzyFold text l st).2 = (candNum text p.1, candDen text p.1) ∧
        4 * candDen text p.1 ≤ 5 * candNum text p.1 := by
  induction l with
  | nil => exact fun st c h => Or.inl ⟨h, rfl⟩
  | cons p rest ih =>
    intro st c h
    obtain ⟨best, bn, bd⟩ := st
    simp only [fuzzyFold] at h ⊢
    split at h
    next hcond =>
      rw [if_pos hcond]
      rcases ih _ c h with ⟨h1, h2⟩ | ⟨q, hq, hq2, hq3, hq4⟩
      · right
        refine ⟨p, List.mem_cons_self _ _, by simpa using h1, ?_, ?_⟩
        · rw [h2]
          simp [candNum, candDen]
        · simpa [candNum, candDen] using hcond.2
      · exact Or.inr ⟨q, List.mem_cons_of_mem _ hq, hq2, hq3, hq4⟩
    next hcond =>
      rw [if_neg hcond]
      rcases ih _ c h with ⟨h1, h2⟩ | ⟨q, hq, hq2, hq3, hq4⟩
      · exact Or.inl ⟨h1, h2⟩
      · exact Or.inr ⟨q, List.mem_cons_of_mem _ hq, hq2, hq3, hq4⟩

set_option maxRecDepth 8000 in
/-- **C5**: the resolver strips boilerplate, then matches exactly against
canonical names, then aliases, then fuzzily; the fuzzy stage accepts the
single highest-scoring canonical candidate only at normalized similarity
`≥ 0.8`, else resolves to UNRESOLVED (`none`).  Concretely:
`resolve("Coverage at 12 months MMR1") = MMR1`,
`resolve("DTaP/IPV/Hib/HepB Prim") = DTaP_IPV_Hib_HepB`,
`resolve("Totally Unrelated Text") = UNRESOLVED`. -/
theorem vaccine_matcher_resolution :
    vaccineMatch "Coverage at 12 months MMR1" = some "MMR1" ∧
    vaccineMatch "DTaP/IPV/Hib/HepB Prim" = some "DTaP_IPV_Hib_HepB" ∧
    vaccineMatch "Totally Unrelated Text" = none ∧
    (∀ text : String, fuzzyMatch text = none →
      ∀ p ∈ exactMatchIndex, ratioQ (pyLower text) (pyLower p.1) < 4 / 5) ∧
    (∀ (text c : String), fuzzyMatch text = some c →
      ∃ p ∈ exactMatchIndex, p.2 = c ∧
        (4 : ℚ) / 5 ≤ ratioQ (pyLower text) (pyLower p.1) ∧
        ∀ q ∈ exactMatchIndex,
          ratioQ (pyLower text) (pyLower q.1) ≤ ratioQ (pyLower text) (pyLower p.1)) := by
  have hne : ∀ p ∈ exactMatchIndex, p.1 ≠ "" := by decide
  refine ⟨by decide, by decide, by decide, ?_, ?_⟩
  · intro text h p hp
    obtain ⟨-, hrej⟩ := fuzzyFold_none_spec text exactMatchIndex (none, 0, 1) h
    have hrej' : ¬(0 < candNum text p.1 ∧
        4 * candDen text p.1 ≤ 5 * candNum text p.1) := by
      simpa using hrej p hp
    have hcd : 0 < candDen text p.1 := candDen_pos text p.1 (hne p hp)
    rw [ratioQ_eq_cand]
    rcases Decidable.not_and_iff_or_not.mp hrej' with hc1 | hc2
    · have : candNum text p.1 = 0 := Nat.eq_zero_of_not_pos hc1
      rw [this]
      norm_num
    · have h5 : (5 * candNum text p.1 : ℚ) < 4 * candDen text p.1 := by
        exact_mod_cast Nat.lt_of_not_le hc2
      rw [div_lt_div_iff₀ (by exact_mod_cast hcd) (by norm_num : (0:ℚ) < 5)]
      push_cast at h5 ⊢
      linarith
  · intro text c h
    rcases fuzzyFold_some_provenance text exactMatchIndex (none, 0, 1) c h with
      ⟨h1, -⟩ | ⟨p, hp, hpc, hfin, hthr⟩
    · exact absurd h1 (by simp)
    · have hcd : 0 < candDen text p.1 := candDen_pos text p.1 (hne p hp)
      refine ⟨p, hp, hpc, ?_, ?_⟩
      · rw [ratioQ_eq_cand]
        have h4 : (4 * candDen text p.1 : ℚ) ≤ 5 * candNum text p.1 := by
          exact_mod_cast hthr
        rw [div_le_div_iff₀ (by norm_num : (0:ℚ) < 5) (by exact_mod_cast hcd)]
        push_cast at h4 ⊢
        linarith
      · intro q hq
        have hdom := fuzzyFold_dominates text exactMatchIndex (none, 0, 1) hne
          (by norm_num) q hq
        have hfin1 : ((fuzzyFold text exactMatchIndex (none, 0, 1)).2.1 : ℚ) =
            (candNum text p.1 : ℚ) := by
          rw [hfin]
        have hfin2 : ((fuzzyFold text exactMatchIndex (none, 0, 1)).2.2 : ℚ) =
            (candDen text p.1 : ℚ) := by
          rw [hfin]
        rw [ratioQ_eq_cand, ratioQ_eq_cand]
        rcases hdom with hle | hlt
        · rw [hfin1, hfin2] at hle
          exact hle
        · refine le_trans (le_of_lt hlt) ?_
          have h4 : (4 * candDen text p.1 : ℚ) ≤ 5 * candNum text p.1 := by
            exact_mod_cast hthr
          rw [div_le_div_iff₀ (by norm_num : (0:ℚ) < 5) (by exact_mod_cast hcd)]
          push_cast at h4 ⊢
          linarith

/-- Witness for C5 at the spec's concrete example. -/
theorem vaccine_matcher_resolution_witness :
    vaccineMatch "Coverage at 12 months MMR1" = some "MMR1" :=
  vaccine_matcher_resolution.1

/-! ## Range-mode exclusivity (C10) -/

/-- **C10**: with `return_range=True`, both implementations return a pair
with at most one non-null component: a parsed number is never accompanied
by range text, and preserved range text never by a number. -/
theorem clean_numeric_range_mode_exclusive (value : Option String) (dp : Option ℕ) :
    ((cleanNumericRangeSrc value dp).1 = none ∨ (cleanNumericRangeSrc value dp).2 = none) ∧
    ((cleanNumericRangeBk value dp).1 = none ∨ (cleanNumericRangeBk value dp).2 = none) := by
  constructor
  · cases value with
    | none => exact Or.inl rfl
    | some raw =>
      simp only [cleanNumericRangeSrc]
      split
      · exact Or.inl rfl
      · split
        · exact Or.inl rfl
        · split
          · split
            · exact Or.inr rfl
            · exact Or.inl rfl
          · split
            · exact Or.inr rfl
            · exact Or.inl rfl
  · cases value with
    | none => exact Or.inl rfl
    | some raw =>
      simp only [cleanNumericRangeBk]
      split
      · exact Or.inl rfl
      · split
        · exact Or.inl rfl
        · split
          · exact Or.inr rfl
          · exact Or.inl rfl

/-! ## Comma / percent stripping (C7) -/

/-- **C7** (counterexample): the `src/src` normalizer removes only commas —
not `%` signs — before parsing, so `"95%"` resolves to null there. -/
theorem src_normalizer_drops_percent_suffixed_number :
    cleanNumericSrc (some "95%") none = none := by decide

/-- **C7** (amended): both implementations remove thousands-separator
commas before parsing (`normalize("668,160") = 668160` in both); the
backend implementation also removes `%` signs so `normalize("95%") = 95`
there, while the `src/src` implementation removes commas only and `"95%"`
resolves to null. -/
theorem comma_and_percent_stripping_amended :
    cleanNumericSrc (some "668,160") none = some ⟨668160, 0⟩ ∧
    cleanNumericBk (some "668,160") none = some ⟨668160, 0⟩ ∧
    cleanNumericBk (some "95%") none = some ⟨95, 0⟩ ∧
    cleanNumericSrc (some "95%") none = none :=
  ⟨by decide, by decide, by decide, by decide⟩

/-! ## Rounding semantics (C8) -/

theorem intCast_eq_fdiv_add_fmod (m p : ℤ) :
    (m : ℚ) = (p : ℚ) * (Int.fdiv m p : ℚ) + (Int.fmod m p : ℚ) := by
  exact_mod_cast (Int.fdiv_add_fmod m p).symm

theorem intCast_div_eq_fdiv_add (m p : ℤ) (hp : 0 < p) :
    (m : ℚ) / (p : ℚ) = (Int.fdiv m p : ℚ) + (Int.fmod m p : ℚ) / (p : ℚ) := by
  have hp0 : (p : ℚ) ≠ 0 := by exact_mod_cast hp.ne'
  rw [intCast_eq_fdiv_add_fmod m p]
  field_simp
  ring

theorem fmod_div_nonneg (m p : ℤ) (hp : 0 < p) :
    (0 : ℚ) ≤ (Int.fmod m p : ℚ) / (p : ℚ) :=
  div_nonneg (by exact_mod_cast Int.fmod_nonneg' m hp) (by exact_mod_cast hp.le)

theorem fmod_div_lt_one (m p : ℤ) (hp : 0 < p) :
    (Int.fmod m p : ℚ) / (p : ℚ) < 1 := by
  rw [div_lt_one (by exact_mod_cast hp : (0:ℚ) < (p:ℚ))]
  exact_mod_cast Int.fmod_lt_of_pos m hp

theorem floor_intCast_div_eq_fdiv (m p : ℤ) (hp : 0 < p) :
    ⌊(m : ℚ) / (p : ℚ)⌋ = Int.fdiv m p := by
  rw [intCast_div_eq_fdiv_add m p hp]
  apply Int.floor_eq_iff.mpr
  constructor
  · have := fmod_div_nonneg m p hp
    linarith
  · have := fmod_div_lt_one m p hp
    linarith

theorem round_intCast_div_of_pos (m p : ℤ) (hp : 0 < p) (hne : 2 * Int.fmod m p ≠ p) :
    round ((m : ℚ) / (p : ℚ)) =
      if 2 * Int.fmod m p < p then Int.fdiv m p else Int.fdiv m p + 1 := by
  have hpq : (0 : ℚ) < (p : ℚ) := by exact_mod_cast hp
  have hfr0 := fmod_div_nonneg m p hp
  have hfr1 := fmod_div_lt_one m p hp
  rw [round_eq, intCast_div_eq_fdiv_add m p hp]
  by_cases hlt : 2 * Int.fmod m p < p
  · rw [if_pos hlt]
    have hhalf : (Int.fmod m p : ℚ) / p < 1 / 2 := by
      rw [div_lt_div_iff₀ hpq (by norm_num : (0:ℚ) < 2)]
      have : (2 * Int.fmod m p : ℚ) < (p : ℚ) := by exact_mod_cast hlt
      push_cast at this
      linarith
    apply Int.floor_eq_iff.mpr
    refine ⟨by linarith, by linarith⟩
  · rw [if_neg hlt]
    have hgt : p < 2 * Int.fmod m p := by
      rcases lt_trichotomy (2 * Int.fmod m p) p with h1 | h1 | h1
      · exact absurd h1 hlt
      · exact absurd h1 hne
      · exact h1
    have hhalf : (1 : ℚ) / 2 < (Int.fmod m p : ℚ) / p := by
      rw [div_lt_div_iff₀ (by norm_num : (0:ℚ) < 2) hpq]
      have : (p : ℚ) < (2 * Int.fmod m p : ℚ) := by exact_mod_cast hgt
      push_cast at this ⊢
      linarith
    apply Int.floor_eq_iff.mpr
    refine ⟨by push_cast; linarith, by push_cast; linarith⟩

theorem fract_intCast_div (m p : ℤ) (hp : 0 < p) :
    (m : ℚ) / (p : ℚ) - (⌊(m : ℚ) / (p : ℚ)⌋ : ℤ) = (Int.fmod m p : ℚ) / (p : ℚ) := by
  rw [floor_intCast_div_eq_fdiv m p hp, intCast_div_eq_fdiv_add m p hp]
  ring

theorem pyRoundDec_toQ_eq_round_of_ne_half (d : Dec) (n : ℕ)
    (h : Dec.toQ d * 10 ^ n - ⌊Dec.toQ d * 10 ^ n⌋ ≠ 1 / 2) :
    Dec.toQ (pyRoundDec d n) = ((round (Dec.toQ d * 10 ^ n) : ℤ) : ℚ) / 10 ^ n := by
  by_cases he : d.e ≤ n
  · have hx : Dec.toQ d * 10 ^ n = ((d.m * 10 ^ (n - d.e) : ℤ) : ℚ) := by
      rw [Dec.toQ, div_mul_eq_mul_div, div_eq_iff (by positivity)]
      push_cast
      rw [mul_assoc, ← pow_add]
      have hee : n - d.e + d.e = n := by omega
      rw [hee]
    rw [pyRoundDec, if_pos he, hx, round_intCast, Dec.toQ]
    rw [div_eq_div_iff (by positivity) (by positivity)]
    push_cast
    rw [mul_assoc, ← pow_add]
    have hee : n - d.e + d.e = n := by omega
    rw [hee]
  · have hppos : (0 : ℤ) < 10 ^ (d.e - n) := by positivity
    have hppos' : (0 : ℚ) < (((10 : ℤ) ^ (d.e - n) : ℤ) : ℚ) := by exact_mod_cast hppos
    have hx : Dec.toQ d * 10 ^ n = (d.m : ℚ) / (((10 : ℤ) ^ (d.e - n) : ℤ) : ℚ) := by
      rw [Dec.toQ, div_mul_eq_mul_div, div_eq_div_iff (by positivity) hppos'.ne']
      push_cast
      rw [mul_assoc, ← pow_add]
      have hee : n + (d.e - n) = d.e := by omega
      rw [hee]
    have hne : 2 * Int.fmod d.m (10 ^ (d.e - n)) ≠ 10 ^ (d.e - n) := by
      intro habs
      apply h
      rw [hx, fract_intCast_div d.m _ hppos]
      rw [div_eq_div_iff hppos'.ne' (by norm_num : (2:ℚ) ≠ 0)]
      have hc : (2 * Int.fmod d.m (10 ^ (d.e - n)) : ℚ) =
          (((10 : ℤ) ^ (d.e - n) : ℤ) : ℚ) := by exact_mod_cast habs
      push_cast at hc ⊢
      linarith
    rw [hx, round_intCast_div_of_pos d.m _ hppos hne, pyRoundDec, if_neg he]
    by_cases hlt : 2 * Int.fmod d.m ((10 : ℤ) ^ (d.e - n)) < 10 ^ (d.e - n)
    · rw [if_pos hlt, if_pos hlt, Dec.toQ]
    · rw [if_neg hlt, if_neg hlt]
      have hgt : (10 : ℤ) ^ (d.e - n) < 2 * Int.fmod d.m (10 ^ (d.e - n)) := by
        rcases lt_trichotomy (2 * Int.fmod d.m ((10 : ℤ) ^ (d.e - n)))
          ((10 : ℤ) ^ (d.e - n)) with h1 | h1 | h1
        · exact absurd h1 hlt
        · exact absurd h1 hne
        · exact h1
      rw [if_pos hgt, Dec.toQ]

/-- **C8** (counterexample): at the exact tie `0.125` with 2 decimals the
code rounds half to even and stores `0.12`, while half-up (standard)
rounding — Mathlib's `round` — gives `0.13`. -/
theorem rounding_is_not_half_up :
    cleanNumericSrc (some "0.125") (some 2) = some ⟨12, 2⟩ ∧
    ((round ((125 : ℚ) / 1000 * 10 ^ 2) : ℤ) : ℚ) / 10 ^ 2 = 13 / 100 ∧
    Dec.toQ ⟨12, 2⟩ ≠ 13 / 100 := by
  refine ⟨by decide, ?_, by norm_num [Dec.toQ]⟩
  have h1 : (125 : ℚ) / 1000 * 10 ^ 2 = 25 / 2 := by norm_num
  have h2 : round ((25 : ℚ) / 2) = 13 := by
    rw [round_eq, show (25 : ℚ) / 2 + 1 / 2 = ((13 : ℤ) : ℚ) from by norm_num,
      Int.floor_intCast]
  rw [h1, h2]
  norm_num

/-- **C8** (amended): with a `decimals` argument the normalizer rounds with
Python's `round`, i.e. half to even: away from exact ties this coincides
with standard half-up rounding (Mathlib's `round`), and the spec example
`normalize(94.03672966891358, decimals=2) = 94.04` holds. -/
theorem clean_numeric_rounding_amended (d : Dec) (n : ℕ)
    (h : Dec.toQ d * 10 ^ n - ⌊Dec.toQ d * 10 ^ n⌋ ≠ 1 / 2) :
    cleanNumericSrc (some "94.03672966891358") (some 2) = some ⟨9404, 2⟩ ∧
    Dec.toQ (pyRoundDec d n) = ((round (Dec.toQ d * 10 ^ n) : ℤ) : ℚ) / 10 ^ n :=
  ⟨by decide, pyRoundDec_toQ_eq_round_of_ne_half d n h⟩

/-- Witness for C8 at the non-tie decimal `0.125` rounded to one place. -/
theorem clean_numeric_rounding_amended_witness :
    (Dec.toQ ⟨125, 3⟩ * 10 ^ 1 - ⌊Dec.toQ ⟨125, 3⟩ * 10 ^ 1⌋ ≠ 1 / 2) ∧
    (cleanNumericSrc (some "94.03672966891358") (some 2) = some ⟨9404, 2⟩ ∧
      Dec.toQ (pyRoundDec ⟨125, 3⟩ 1) =
        ((round (Dec.toQ ⟨125, 3⟩ * 10 ^ 1) : ℤ) : ℚ) / 10 ^ 1) := by
  have hval : Dec.toQ ⟨125, 3⟩ * 10 ^ 1 = 5 / 4 := by norm_num [Dec.toQ]
  have hfl : (⌊Dec.toQ ⟨125, 3⟩ * 10 ^ 1⌋ : ℤ) = 1 := by
    rw [hval]
    apply Int.floor_eq_iff.mpr
    norm_num
  have hhyp : Dec.toQ ⟨125, 3⟩ * 10 ^ 1 - ⌊Dec.toQ ⟨125, 3⟩ * 10 ^ 1⌋ ≠ 1 / 2 := by
    rw [hfl, hval]
    norm_num
  exact ⟨hhyp, clean_numeric_rounding_amended ⟨125, 3⟩ 1 hhyp⟩

/-! ## Agreement of the two normalizer implementations (C9) -/

theorem mem_of_listIsPrefixOf {c : Char} :
    ∀ {p l : List Char}, c ∈ p → listIsPrefixOf p l = true → c ∈ l := by
  intro p
  induction p with
  | nil => intro l hc; simp at hc
  | cons a as ih =>
    intro l hc hp
    cases l with
    | nil => simp [listIsPrefixOf] at hp
    | cons b bs =>
      simp only [listIsPrefixOf] at hp
      split at hp
      · rcases List.mem_cons.mp hc with h1 | h1
        · subst h1
          rename_i hab
          subst hab
          exact List.mem_cons_self _ _
        · exact List.mem_cons_of_mem _ (ih h1 hp)
      · exact absurd hp (by simp)

theorem mem_of_listIsInfixOf {c : Char} {sub : List Char} :
    ∀ {l : List Char}, c ∈ sub → listIsInfixOf sub l = true → c ∈ l := by
  intro l
  induction l with
  | nil =>
    intro hc h
    simp only [listIsInfixOf] at h
    cases sub with
    | nil => simp at hc
    | cons a as => simp [listIsPrefixOf] at h
  | cons b bs ih =>
    intro hc h
    simp only [listIsInfixOf, Bool.or_eq_true] at h
    rcases h with h | h
    · exact mem_of_listIsPrefixOf hc h
    · exact List.mem_cons_of_mem _ (ih hc h)

theorem listIsInfixOf_single_iff (a : Char) :
    ∀ (l : List Char), listIsInfixOf [a] l = true ↔ a ∈ l := by
  intro l
  induction l with
  | nil => simp [listIsInfixOf, listIsPrefixOf]
  | cons b bs ih =>
    simp only [listIsInfixOf, listIsPrefixOf, Bool.or_eq_true, ih]
    constructor
    · rintro (h | h)
      · split at h
        · rename_i hab
          subst hab
          exact List.mem_cons_self _ _
        · exact absurd h (by simp)
      · exact List.mem_cons_of_mem _ h
    · intro h
      rcases List.mem_cons.mp h with h1 | h1
      · subst h1
        exact Or.inl (by simp [listIsPrefixOf])
      · exact Or.inr h1

theorem replaceList_single_empty (a : Char) :
    ∀ l : List Char, replaceList [a] [] l = l.filter (fun c => decide (c ≠ a)) := by
  intro l
  induction l with
  | nil => rfl
  | cons c rest ih =>
    simp only [replaceList, replaceGo] at ih ⊢
    by_cases hac : a = c
    · subst hac
      rw [if_pos ⟨by simp, by simp [listIsPrefixOf]⟩]
      simp [List.filter_cons, ih]
    · rw [if_neg (by simp [listIsPrefixOf, hac])]
      simp [List.filter_cons, Ne.symm hac, ih]

theorem goodCell_not_space {c : Char} (h : goodCell c = true) : pyIsSpace c = false := by
  simp only [goodCell, Bool.or_eq_true, decide_eq_true_eq] at h
  rcases h with (hd | h1) | h1
  · by_contra hs
    have hs' : pyIsSpace c = true := by
      cases hsv : pyIsSpace c
      · exact absurd hsv hs
      · rfl
    simp only [pyIsSpace, Bool.or_eq_true, decide_eq_true_eq] at hs'
    rcases hs' with ((((h2 | h2) | h2) | h2) | h2) | h2 <;>
      (subst h2; exact absurd hd (by decide))
  · subst h1; decide
  · subst h1; decide

theorem isDigit_ne {c : Char} (h : c.isDigit = true) (d : Char) (hd : d.isDigit = false) :
    c ≠ d := by
  intro he
  subst he
  rw [h] at hd
  cases hd

theorem dropWhile_eq_self_of_not {m : List Char} (hm : ∀ c ∈ m, pyIsSpace c = false) :
    m.dropWhile pyIsSpace = m := by
  cases m with
  | nil => rfl
  | cons c r =>
    rw [List.dropWhile_cons, if_neg]
    rw [hm c (List.mem_cons_self _ _)]
    simp

theorem pyStripList_eq_self {l : List Char} (h : ∀ c ∈ l, pyIsSpace c = false) :
    pyStripList l = l := by
  unfold pyStripList
  rw [dropWhile_eq_self_of_not h, dropWhile_eq_self_of_not ?h2, List.reverse_reverse]
  case h2 =>
    intro c hc
    exact h c (List.mem_reverse.mp hc)

theorem splitFirst_eq_none {p : Char → Bool} :
    ∀ {l : List Char}, (∀ c ∈ l, p c = false) → splitFirst p l = none := by
  intro l
  induction l with
  | nil => intro _; rfl
  | cons c rest ih =>
    intro h
    simp only [splitFirst]
    rw [if_neg (by rw [h c (List.mem_cons_self _ _)]; simp)]
    rw [ih (fun d hd => h d (List.mem_cons_of_mem _ hd))]

theorem parseDigits_all {l : List Char} (hne : l ≠ []) (hd : l.all Char.isDigit = true) :
    parseDigits? l = some (digitsToNat l) := by
  rw [parseDigits?, if_pos ⟨hne, hd⟩]

theorem pyInt_digits {l : List Char} (hne : l ≠ []) (hd : l.all Char.isDigit = true) :
    pyInt? ⟨l⟩ = some ((digitsToNat l : ℤ)) := by
  have hstrip : pyStripList l = l := by
    apply pyStripList_eq_self
    intro c hc
    have : c.isDigit = true := by
      rw [List.all_eq_true] at hd
      exact hd c hc
    apply goodCell_not_space
    simp [goodCell, this]
  cases l with
  | nil => exact absurd rfl hne
  | cons c rest =>
    have hc : c.isDigit = true := by
      rw [List.all_eq_true] at hd
      exact hd c (List.mem_cons_self _ _)
    unfold pyInt?
    simp only [show String.data ⟨c :: rest⟩ = c :: rest from rfl, hstrip]
    rw [if_neg (isDigit_ne hc '+' (by decide)), if_neg (isDigit_ne hc '-' (by decide))]
    rw [parseDigits_all hne hd]
    rfl

theorem pyFloat_digits {l : List Char} (hne : l ≠ []) (hd : l.all Char.isDigit = true) :
    pyFloat? ⟨l⟩ = some ⟨(digitsToNat l : ℤ), 0⟩ := by
  have hdig : ∀ c ∈ l, c.isDigit = true := List.all_eq_true.mp hd
  have hstrip : pyStripList l = l := by
    apply pyStripList_eq_self
    intro c hc
    apply goodCell_not_space
    simp [goodCell, hdig c hc]
  cases l with
  | nil => exact absurd rfl hne
  | cons c rest =>
    have hc : c.isDigit = true := hdig c (List.mem_cons_self _ _)
    unfold pyFloat?
    simp only [show String.data ⟨c :: rest⟩ = c :: rest from rfl, hstrip]
    rw [if_neg (isDigit_ne hc '+' (by decide)), if_neg (isDigit_ne hc '-' (by decide))]
    rw [splitFirst_eq_none (p := fun c => c = 'e' || c = 'E') ?he]
    case he =>
      intro d hdm
      have := isDigit_ne (hdig d hdm) 'e' (by decide)
      have := isDigit_ne (hdig d hdm) 'E' (by decide)
      simp_all
    simp only [parseMantissa?]
    rw [splitFirst_eq_none (p := fun c => c = '.') ?hdot]
    case hdot =>
      intro d hdm
      have := isDigit_ne (hdig d hdm) '.' (by decide)
      simp_all
    rw [parseDigits_all hne hd]
    rfl

theorem pyRoundDec_e_zero (m : ℤ) (n : ℕ) : pyRoundDec ⟨m, 0⟩ n = ⟨m, 0⟩ := by
  rw [pyRoundDec, if_pos (Nat.zero_le n)]

/-- **C9** (amended): the two `clean_numeric_value` implementations agree on
`None`/NaN input and on every raw string whose stripped form is a plain
comma-grouped numeral (digits, commas, at most one decimal point, at least
one digit), for every `decimal_places` and both `return_range` modes; they
are **not** extensionally equal in general (see the counterexample at
`"95%"`). -/
theorem clean_numeric_src_bk_agree (s : String) (dp : Option ℕ) (h : goodShape s) :
    cleanNumericRangeSrc (some s) dp = cleanNumericRangeBk (some s) dp ∧
    cleanNumericSrc (some s) dp = cleanNumericBk (some s) dp ∧
    cleanNumericRangeSrc none dp = cleanNumericRangeBk none dp := by
  obtain ⟨hne, hall, hdot, hdig⟩ := h
  have hallmem : ∀ c ∈ pyStripList s.data, goodCell c = true := List.all_eq_true.mp hall
  suffices hmain : cleanNumericRangeSrc (some s) dp = cleanNumericRangeBk (some s) dp by
    refine ⟨hmain, ?_, rfl⟩
    rw [cleanNumericSrc, cleanNumericBk, hmain]
  have hmk : ∀ (m : String) (c : Char), c ∈ m.data → goodCell c = false →
      pyStrip s ≠ m := by
    intro m c hc hbad heq
    have hdata : pyStripList s.data = m.data := congrArg String.data heq
    have hcm : c ∈ pyStripList s.data := by rw [hdata]; exact hc
    rw [hallmem c hcm] at hbad
    cases hbad
  have hme : pyStrip s ≠ "" := fun heq => hne (congrArg String.data heq)
  have hmksrc : ¬(pyStrip s = "[z]" ∨ pyStrip s = "[c]" ∨ pyStrip s = "[x]" ∨
      pyStrip s = "" ∨ pyStrip s = "nan") := by
    rintro (h1 | h1 | h1 | h1 | h1)
    · exact hmk _ '[' (by decide) (by decide) h1
    · exact hmk _ '[' (by decide) (by decide) h1
    · exact hmk _ '[' (by decide) (by decide) h1
    · exact hme h1
    · exact hmk _ 'n' (by decide) (by decide) h1
  have hsub : ∀ (sub : String) (c : Char), c ∈ sub.data → goodCell c = false →
      pyContains (pyStrip s) sub = false := by
    intro sub c hc hbad
    by_cases hv : pyContains (pyStrip s) sub = true
    · exfalso
      have hcm : c ∈ pyStripList s.data := mem_of_listIsInfixOf hc hv
      rw [hallmem c hcm] at hbad
      cases hbad
    · simpa using hv
  have hto : pyContains (pyStrip s) "to" = false := hsub _ 't' (by decide) (by decide)
  have htosp : pyContains (pyStrip s) " to " = false := hsub _ 't' (by decide) (by decide)
  have hrangesrc : ¬(pyContains (pyStrip s) "to" = true ∧
      pyContains (pyStrip s) "%" = true) := by
    rintro ⟨h1, -⟩
    rw [hto] at h1
    cases h1
  have hrangebk : ¬pyContains (pyStrip s) " to " = true := by
    rw [htosp]
    simp
  have hra : pyReplace (pyStrip s) "," "" =
      ⟨(pyStripList s.data).filter (fun c => decide (c ≠ ','))⟩ := by
    rw [pyReplace]
    exact congrArg String.mk (replaceList_single_empty ',' (pyStripList s.data))
  have htf : ∀ c ∈ (pyStripList s.data).filter (fun c => decide (c ≠ ',')),
      goodCell c = true ∧ c ≠ ',' := by
    intro c hc
    rw [List.mem_filter] at hc
    exact ⟨hallmem c hc.1, by simpa using hc.2⟩
  have hrb : pyReplace (pyReplace (pyStrip s) "," "") "%" "" =
      ⟨(pyStripList s.data).filter (fun c => decide (c ≠ ','))⟩ := by
    rw [hra, pyReplace]
    refine congrArg String.mk ?_
    rw [show ("%".data) = ['%'] from rfl]
    rw [replaceList_single_empty '%']
    apply List.filter_eq_self.mpr
    intro c hc
    have := (htf c hc).1
    simp only [decide_eq_true_eq]
    intro heq
    subst heq
    exact absurd this (by decide)
  have hdig' : ∃ c ∈ (pyStripList s.data).filter (fun c => decide (c ≠ ',')),
      c.isDigit = true := by
    rw [List.any_eq_true] at hdig
    obtain ⟨c, hc, hcd⟩ := hdig
    refine ⟨c, List.mem_filter.mpr ⟨hc, ?_⟩, hcd⟩
    simp only [decide_eq_true_eq]
    exact isDigit_ne hcd ',' (by decide)
  have htne : (pyStripList s.data).filter (fun c => decide (c ≠ ',')) ≠ [] := by
    obtain ⟨c, hc, -⟩ := hdig'
    intro habs
    rw [habs] at hc
    simp at hc
  simp only [cleanNumericRangeSrc, cleanNumericRangeBk]
  rw [if_neg hmksrc, if_neg hrangesrc, if_neg hmksrc, if_neg hrangebk, hrb, hra]
  by_cases hdotmem : '.' ∈ (pyStripList s.data).filter (fun c => decide (c ≠ ','))
  · rw [if_pos]
    exact (listIsInfixOf_single_iff '.' _).mpr hdotmem
  · have halldig : ((pyStripList s.data).filter (fun c => decide (c ≠ ','))).all
        Char.isDigit = true := by
      rw [List.all_eq_true]
      intro c hc
      obtain ⟨hg, hnc⟩ := htf c hc
      simp only [goodCell, Bool.or_eq_true, decide_eq_true_eq] at hg
      rcases hg with (hg | hg) | hg
      · exact hg
      · exact absurd hg hnc
      · exfalso
        subst hg
        exact hdotmem hc
    have hnotdot : ¬(pyContains
        (⟨(pyStripList s.data).filter (fun c => decide (c ≠ ','))⟩ : String) "." = true) := by
      intro hv
      exact hdotmem ((listIsInfixOf_single_iff '.' _).mp hv)
    rw [if_neg hnotdot]
    rw [pyInt_digits htne halldig, pyFloat_digits htne halldig]
    cases dp with
    | none => rfl
    | some d => simp [pyRoundDec_e_zero]

/-- Witness for C9 at the spec's comma-grouped example `"668,160"`. -/
theorem clean_numeric_src_bk_agree_witness :
    goodShape "668,160" ∧
    (cleanNumericRangeSrc (some "668,160") none = cleanNumericRangeBk (some "668,160") none ∧
      cleanNumericSrc (some "668,160") none = cleanNumericBk (some "668,160") none ∧
      cleanNumericRangeSrc none none = cleanNumericRangeBk none none) :=
  ⟨by constructor
      · decide
      · exact ⟨by decide, by decide, by decide⟩,
   clean_numeric_src_bk_agree "668,160" none
     (by constructor
         · decide
         · exact ⟨by decide, by decide, by decide⟩)⟩

/-- **C9** (counterexample): the two implementations differ at `"95%"` —
the `src/src` variant yields null, the backend variant yields 95. -/
theorem clean_numeric_src_bk_differ_on_percent :
    cleanNumericSrc (some "95%") none = none ∧
    cleanNumericBk (some "95%") none = some ⟨95, 0⟩ ∧
    (some (⟨95, 0⟩ : Dec) : Option Dec) ≠ none :=
  ⟨by decide, by decide, by decide⟩
